import Mathlib

set_option autoImplicit false

/-!
Verification development for the Payngo product scraper (`src/deta/demo1.py`).

The Python source is shallowly embedded below.  Pure string manipulation
(URL joining as in `urllib.parse.urljoin`, percent decoding as in
`urllib.parse.unquote`, `os.path.splitext`, `str.replace`, the price-cleaning
regexes and the product-id regexes) is translated into executable Lean
functions over `List Char`.  Effectful steps (HTTP fetches, the video
existence service, transcoding) are abstracted as oracle functions supplied
in an `Oracles` structure; file writes, removals, download requests and
output-file appends are recorded in an explicit event trace so ordering
claims can be stated.  Environment-variable configuration becomes a
`Config` record.

Conventions of the model, noted once here:
* Python's `str` is modelled as Lean `String` / `List Char`; `\d` in the
  source regexes is modelled as ASCII `Char.isDigit` (all inputs of
  interest are ASCII digits).
* `urllib.parse` functions follow the CPython algorithm (scheme / netloc /
  query / fragment splitting, RFC 3986 relative-reference resolution,
  parameter splitting at `;`) for inputs without embedded tab / CR / LF
  control characters, which CPython would strip first.
* Remote calls that the source retries forever (auth token, video-exists
  check, task submission) are modelled as always eventually succeeding,
  matching their infinite-retry loops.
-/

abbrev Chars := List Char

/-- Split a character list at the first character satisfying `p`:
returns the part strictly before it and, when found, the part after it. -/
def splitFirst (p : Char → Bool) : Chars → Chars × Option Chars
  | [] => ([], none)
  | c :: t =>
    if p c then ([], some t)
    else
      let r := splitFirst p t
      (c :: r.1, r.2)

/-- `scheme_chars` of `urllib.parse`: ASCII letters, digits and `+`, `-`, `.`. -/
def schemeChar (c : Char) : Bool :=
  c.isAlpha || c.isDigit || c = '+' || c = '-' || c = '.'

/-- A valid URL scheme: nonempty, starts with a letter, all scheme chars. -/
def validScheme (s : Chars) : Bool :=
  match s with
  | [] => false
  | c :: _ => c.isAlpha && s.all schemeChar

def lowerChars (l : Chars) : Chars := l.map Char.toLower

/-- Result of `urllib.parse.urlsplit`. -/
structure USplit where
  scheme  : Chars
  netloc  : Chars
  path    : Chars
  query   : Chars
  fragment : Chars
deriving DecidableEq

/-- Is `c` one of `/`, `?`, `#` (the netloc delimiters)? -/
def netlocDelim (c : Char) : Bool := c = '/' || c = '?' || c = '#'

/-- Scheme detection step of `urlsplit`: on `pre ++ ':' :: post` with a
valid scheme `pre`, yield `(lowercased scheme, post)`; otherwise the
default scheme and the whole input. -/
def schemeSplit (dflt url : Chars) : Chars × Chars :=
  let sp := splitFirst (fun c => c = ':') url
  match sp.2 with
  | some post => if validScheme sp.1 then (lowerChars sp.1, post) else (dflt, url)
  | none => (dflt, url)

/-- Netloc detection step of `urlsplit`: when the input starts with `//`,
the netloc runs until the first `/`, `?` or `#`. -/
def netlocSplit (rest : Chars) : Chars × Chars :=
  if rest.take 2 = ['/', '/'] then
    ((rest.drop 2).takeWhile (fun c => !(netlocDelim c)),
     (rest.drop 2).dropWhile (fun c => !(netlocDelim c)))
  else ([], rest)

/-- Fragment split of `urlsplit`: at the first `#`. -/
def fragSplit (rest : Chars) : Chars × Chars :=
  match splitFirst (fun c => c = '#') rest with
  | (pre, some f) => (pre, f)
  | (pre, none) => (pre, [])

/-- Query split of `urlsplit`: at the first `?`. -/
def querySplit (rest : Chars) : Chars × Chars :=
  match splitFirst (fun c => c = '?') rest with
  | (pre, some q) => (pre, q)
  | (pre, none) => (pre, [])

/-- Model of CPython `urllib.parse.urlsplit(url, scheme=dflt)`
(with `allow_fragments=True`). -/
def urlsplitC (dflt : Chars) (url : Chars) : USplit :=
  let s := schemeSplit dflt url
  let n := netlocSplit s.2
  let f := fragSplit n.2
  let q := querySplit f.1
  ⟨s.1, n.1, q.1, q.2, f.2⟩

/-- The netloc/path part of `urlunsplit`: `//` plus the netloc when one is
present (or the path itself starts with `//`), then the path, `/`-separated
from the netloc when needed. -/
def urlunsplitNetPath (u : USplit) : Chars :=
  if u.netloc ≠ [] ∨ u.path.take 2 = ['/', '/'] then
    ['/', '/'] ++ u.netloc ++
      (if u.path ≠ [] ∧ u.path.head? ≠ some '/' then '/' :: u.path else u.path)
  else u.path

/-- Model of CPython `urllib.parse.urlunsplit`. -/
def urlunsplitC (u : USplit) : Chars :=
  let url1 := urlunsplitNetPath u
  let url2 := if u.scheme ≠ [] then u.scheme ++ ':' :: url1 else url1
  let url3 := if u.query ≠ [] then url2 ++ '?' :: u.query else url2
  if u.fragment ≠ [] then url3 ++ '#' :: u.fragment else url3

/-- Result of `urllib.parse.urlparse` (adds the `;`-params component). -/
structure UParse where
  scheme  : Chars
  netloc  : Chars
  path    : Chars
  params  : Chars
  query   : Chars
  fragment : Chars
deriving DecidableEq

/-- `uses_params` table of `urllib.parse`. -/
def usesParams : List Chars :=
  [[], "ftp".data, "hdl".data, "prospero".data, "http".data, "imap".data,
   "https".data, "shttp".data, "rtsp".data, "rtspu".data, "sip".data,
   "sips".data, "mms".data, "sftp".data, "tel".data]

/-- `uses_relative` table of `urllib.parse`. -/
def usesRelative : List Chars :=
  [[], "ftp".data, "http".data, "gopher".data, "nntp".data, "imap".data,
   "wais".data, "file".data, "https".data, "shttp".data, "mms".data,
   "prospero".data, "rtsp".data, "rtspu".data, "sftp".data, "svn".data,
   "svn+ssh".data, "ws".data, "wss".data]

/-- `uses_netloc` table of `urllib.parse`. -/
def usesNetloc : List Chars :=
  [[], "ftp".data, "http".data, "gopher".data, "nntp".data, "telnet".data,
   "imap".data, "wais".data, "file".data, "mms".data, "https".data,
   "shttp".data, "snews".data, "prospero".data, "rtsp".data, "rtspu".data,
   "rsync".data, "svn".data, "svn+ssh".data, "sftp".data, "nfs".data,
   "git".data, "git+ssh".data, "ws".data, "wss".data]

/-- Everything up to and including the last `/` of `l`, and the rest. -/
def splitAtLastSlash (l : Chars) : Chars × Chars :=
  let rev := l.reverse
  let last := rev.takeWhile (fun c => !(c = '/'))
  (l.take (l.length - last.length), last.reverse)

/-- Model of `urllib.parse._splitparams`. -/
def splitparamsC (p : Chars) : Chars × Chars :=
  if '/' ∈ p then
    let pr := splitAtLastSlash p
    match splitFirst (fun c => c = ';') pr.2 with
    | (pre, some post) => (pr.1 ++ pre, post)
    | (_, none) => (p, [])
  else
    match splitFirst (fun c => c = ';') p with
    | (pre, some post) => (pre, post)
    | (_, none) => (p, [])

/-- Model of CPython `urllib.parse.urlparse(url, scheme=dflt)`. -/
def urlparseC (dflt : Chars) (url : Chars) : UParse :=
  let s := urlsplitC dflt url
  if s.scheme ∈ usesParams ∧ ';' ∈ s.path then
    let pp := splitparamsC s.path
    ⟨s.scheme, s.netloc, pp.1, pp.2, s.query, s.fragment⟩
  else
    ⟨s.scheme, s.netloc, s.path, [], s.query, s.fragment⟩

/-- Model of CPython `urllib.parse.urlunparse`. -/
def urlunparseC (u : UParse) : Chars :=
  let path := if u.params ≠ [] then u.path ++ ';' :: u.params else u.path
  urlunsplitC ⟨u.scheme, u.netloc, path, u.query, u.fragment⟩

/-- Split on `/` (CPython `str.split('/')`): at least one part, empty parts kept. -/
def splitSlash : Chars → List Chars
  | [] => [[]]
  | c :: t =>
    let r := splitSlash t
    if c = '/' then [] :: r
    else
      match r with
      | [] => [[c]]
      | h :: rs => (c :: h) :: rs

/-- `segments[1:-1] = filter(None, segments[1:-1])`: drop empty middle parts. -/
def keepEndsFilter : List Chars → List Chars
  | [] => []
  | [y] => [y]
  | y :: z :: ys =>
    if y = [] then keepEndsFilter (z :: ys) else y :: keepEndsFilter (z :: ys)

def filterMiddle : List Chars → List Chars
  | [] => []
  | [x] => [x]
  | x :: rest => x :: keepEndsFilter rest

/-- One step of the `..` / `.` resolution loop of `urljoin`. -/
def resolveStep (acc : List Chars) (seg : Chars) : List Chars :=
  if seg = ['.', '.'] then acc.dropLast
  else if seg = ['.'] then acc
  else acc ++ [seg]

/-- Join path segments back with `/`. -/
def joinSlash : List Chars → Chars
  | [] => []
  | [x] => x
  | x :: y :: t => x ++ '/' :: joinSlash (y :: t)

/-- Model of CPython `urllib.parse.urljoin(base, url)`. -/
def urljoinC (base url : Chars) : Chars :=
  if base = [] then url
  else if url = [] then base
  else
    let b := urlparseC [] base
    let r := urlparseC b.scheme url
    if r.scheme ≠ b.scheme ∨ r.scheme ∉ usesRelative then url
    else
      let earlyNetloc : Option Chars :=
        if r.scheme ∈ usesNetloc then
          if r.netloc ≠ [] then none else some b.netloc
        else some r.netloc
      match earlyNetloc with
      | none => urlunparseC ⟨r.scheme, r.netloc, r.path, r.params, r.query, r.fragment⟩
      | some netloc =>
        if r.path = [] ∧ r.params = [] then
          let query := if r.query = [] then b.query else r.query
          urlunparseC ⟨r.scheme, netloc, b.path, b.params, query, r.fragment⟩
        else
          let baseParts0 := splitSlash b.path
          let baseParts :=
            if baseParts0.getLast? ≠ some ([] : Chars) then baseParts0.dropLast
            else baseParts0
          let segments :=
            if r.path.head? = some '/' then splitSlash r.path
            else filterMiddle (baseParts ++ splitSlash r.path)
          let resolved0 := segments.foldl resolveStep []
          let resolved :=
            if segments.getLast? = some ['.'] ∨ segments.getLast? = some ['.', '.'] then
              resolved0 ++ [[]]
            else resolved0
          let path1 := joinSlash resolved
          let path2 := if path1 = [] then ['/'] else path1
          urlunparseC ⟨r.scheme, netloc, path2, r.params, r.query, r.fragment⟩

/-- `normalize_link` (demo1.py lines 80-82): drop the href's query string
(`href.split("?", 1)[0]`) and resolve it against `base` with `urljoin`. -/
def normalizeLink (base href : String) : String :=
  String.mk (urljoinC base.data (href.data.takeWhile (fun c => !(c = '?'))))

/-- Does `pat` occur as a contiguous substring of `l`? (Python `in` on str). -/
def containsSub (pat : Chars) : Chars → Bool
  | [] => pat.isPrefixOf []
  | c :: t => pat.isPrefixOf (c :: t) || containsSub pat t

/-- Hexadecimal value of a character, if any. -/
def hexDigit (c : Char) : Option Nat :=
  if c.isDigit then some (c.toNat - '0'.toNat)
  else if 'a' ≤ c ∧ c ≤ 'f' then some (c.toNat - 'a'.toNat + 10)
  else if 'A' ≤ c ∧ c ≤ 'F' then some (c.toNat - 'A'.toNat + 10)
  else none

/-- U+FFFD, the replacement character used by `errors='replace'` decoding. -/
def repChar : Char := Char.ofNat 0xFFFD

/-- UTF-8 decoding with replacement-character error handling, as used by
`urllib.parse.unquote`'s `bytes.decode('utf-8', 'replace')`. -/
def utf8DecodeR : List Nat → Chars
  | [] => []
  | b :: t =>
    if b < 0x80 then Char.ofNat b :: utf8DecodeR t
    else if 0xC2 ≤ b && b ≤ 0xDF then
      match t with
      | b2 :: t2 =>
        if 0x80 ≤ b2 && b2 < 0xC0 then
          Char.ofNat (0x40 * (b - 0xC0) + (b2 - 0x80)) :: utf8DecodeR t2
        else repChar :: utf8DecodeR (b2 :: t2)
      | [] => [repChar]
    else if 0xE0 ≤ b && b ≤ 0xEF then
      match t with
      | b2 :: t2 =>
        if (if b = 0xE0 then 0xA0 else 0x80) ≤ b2 &&
           b2 ≤ (if b = 0xED then 0x9F else 0xBF) then
          match t2 with
          | b3 :: t3 =>
            if 0x80 ≤ b3 && b3 < 0xC0 then
              Char.ofNat (0x1000 * (b - 0xE0) + 0x40 * (b2 - 0x80) + (b3 - 0x80)) ::
                utf8DecodeR t3
            else repChar :: utf8DecodeR (b3 :: t3)
          | [] => [repChar]
        else repChar :: utf8DecodeR (b2 :: t2)
      | [] => [repChar]
    else if 0xF0 ≤ b && b ≤ 0xF4 then
      match t with
      | b2 :: t2 =>
        if (if b = 0xF0 then 0x90 else 0x80) ≤ b2 &&
           b2 ≤ (if b = 0xF4 then 0x8F else 0xBF) then
          match t2 with
          | b3 :: t3 =>
            if 0x80 ≤ b3 && b3 < 0xC0 then
              match t3 with
              | b4 :: t4 =>
                if 0x80 ≤ b4 && b4 < 0xC0 then
                  Char.ofNat (0x40000 * (b - 0xF0) + 0x1000 * (b2 - 0x80) +
                    0x40 * (b3 - 0x80) + (b4 - 0x80)) :: utf8DecodeR t4
                else repChar :: utf8DecodeR (b4 :: t4)
              | [] => [repChar]
            else repChar :: utf8DecodeR (b3 :: t3)
          | [] => [repChar]
        else repChar :: utf8DecodeR (b2 :: t2)
      | [] => [repChar]
    else repChar :: utf8DecodeR t

/-- Model of `urllib.parse.unquote(s)` (UTF-8, `errors='replace'`):
maximal ASCII runs (with their `%XX` escapes turned into bytes) are decoded
as UTF-8 byte strings; non-ASCII characters pass through unchanged. -/
def unquoteGo : Chars → List Nat → Chars
  | [], acc => utf8DecodeR acc.reverse
  | '%' :: a :: b :: rest, acc =>
    match hexDigit a, hexDigit b with
    | some x, some y => unquoteGo rest ((16 * x + y) :: acc)
    | _, _ => unquoteGo (a :: b :: rest) ('%'.toNat :: acc)
  | c :: rest, acc =>
    if c.toNat < 128 then unquoteGo rest (c.toNat :: acc)
    else utf8DecodeR acc.reverse ++ c :: unquoteGo rest []

def pyUnquote (s : String) : String := String.mk (unquoteGo s.data [])

/-- `re.search(r"/(\d+)\.html", url)` and `.group(1)`, as used by
`download_images` / `download_videos` (demo1.py lines 377 and 399):
leftmost occurrence of `/`, a nonempty digit run, then literally `.html`. -/
def pidScan : Chars → Option Chars
  | [] => none
  | c :: rest =>
    if c = '/' then
      let ds := rest.takeWhile Char.isDigit
      if ds ≠ [] ∧ ".html".data.isPrefixOf (rest.drop ds.length) then some ds
      else pidScan rest
    else pidScan rest

def pidSearchS (url : String) : Option String := (pidScan url.data).map String.mk

/-- `re.search(r'/(\d+)(?:\.html)?$', path)`: `/`, digits, then optionally
`.html`, anchored at the end of the string (demo1.py line 301). -/
def endNumScan : Chars → Option Chars
  | [] => none
  | c :: rest =>
    if c = '/' then
      let ds := rest.takeWhile Char.isDigit
      let after := rest.drop ds.length
      if ds ≠ [] ∧ (after = ".html".data ∨ after = []) then some ds
      else endNumScan rest
    else endNumScan rest

/-- Fallback `re.search(r'(\d+)(?:\.html)?', path)`: the leftmost maximal
digit run anywhere in the path (demo1.py line 301). -/
def anyNumScan (l : Chars) : Option Chars :=
  let t := l.dropWhile (fun c => !(c.isDigit))
  if t = [] then none else some (t.takeWhile Char.isDigit)

/-- `productNumber` extraction of `get_product_details`
(demo1.py lines 297-305), given the already-unquoted URL path. -/
def productNumberFromPath (path : Chars) : Chars :=
  match endNumScan path with
  | some ds => ds
  | none =>
    match anyNumScan path with
    | some ds => ds
    | none => []

/-- `productNumber` from the product URL: `unquote(urlparse(url).path or "")`
then the two regex attempts. -/
def productNumberOf (url : String) : String :=
  String.mk (productNumberFromPath
    (pyUnquote (String.mk (urlparseC [] url.data).path)).data)

/-- The extension component of `os.path.splitext` (posix rules: extension
starts at the last `.` of the basename, unless the basename up to that dot
consists only of dots). -/
def splitextExtC (p : Chars) : Chars :=
  let base := (p.reverse.takeWhile (fun c => !(c = '/'))).reverse
  let revExt := base.reverse.takeWhile (fun c => !(c = '.'))
  if revExt.length = base.length then []
  else
    let stem := base.take (base.length - revExt.length - 1)
    if stem.any (fun c => !(c = '.')) then '.' :: revExt.reverse else []

def splitextExtS (s : String) : String := String.mk (splitextExtC s.data)

/-- Everything before the first `?` (`src.split("?", 1)[0]`). -/
def stripQueryS (s : String) : String :=
  String.mk (s.data.takeWhile (fun c => !(c = '?')))

def lowerStr (s : String) : String := String.mk (s.data.map Char.toLower)

/-- Image extension choice (demo1.py line 380):
`os.path.splitext(src.split("?", 1)[0])[1] or ".jpg"`. -/
def imgExt (src : String) : String :=
  let e := splitextExtS (stripQueryS src)
  if e = "" then ".jpg" else e

/-- Video extension choice (demo1.py line 412):
`os.path.splitext(src.split("?", 1)[0])[1].lower() or ".mp4"`. -/
def vidExt (src : String) : String :=
  let e := lowerStr (splitextExtS (stripQueryS src))
  if e = "" then ".mp4" else e

/-- Python `str.replace(pat, rep)` for nonempty `pat`: scan left to right,
replacing non-overlapping occurrences.  (Python's special behaviour for an
empty pattern is not needed: the source only replaces `".webm"`.)  The
`fuel` argument makes the recursion structural; it is initialised to the
string length, which the scan never exhausts. -/
def pyReplaceGo (pat rep : Chars) : Nat → Chars → Chars
  | _, [] => []
  | 0, s => s
  | fuel + 1, c :: t =>
    if pat ≠ [] ∧ pat.isPrefixOf (c :: t) then
      rep ++ pyReplaceGo pat rep fuel ((c :: t).drop pat.length)
    else c :: pyReplaceGo pat rep fuel t

def pyReplaceC (pat rep s : Chars) : Chars :=
  pyReplaceGo pat rep s.length s

def pyReplaceS (s pat rep : String) : String :=
  String.mk (pyReplaceC pat.data rep.data s.data)

/-- Environment-variable configuration used by the claims
(PAYNGO_DOMAIN, the image/video file-name prefixes and the public
path prefixes for served media). -/
structure Config where
  domain : String
  imageNamePre : String
  moreImageNamePre : String
  videoNamePre : String
  imagePathPre : String
  videoPathPre : String

/-- `normalize_url` (demo1.py lines 85-89). -/
def normalizeUrl (cfg : Config) (src : String) : String :=
  if src = "" then src
  else
    let s := src.trim
    if s.startsWith "http" then s
    else cfg.domain ++ (if s.startsWith "/" then s else "/" ++ s)

/-- The characters removed before the price regex runs (demo1.py line 153):
U+202F narrow no-break space, U+00A0 no-break space and U+200F right-to-left
mark (the literal `"‏"` in the source). -/
def noiseChar (c : Char) : Bool :=
  c = Char.ofNat 0x202F || c = Char.ofNat 0xA0 || c = Char.ofNat 0x200F

/-- Characters matched by the price regex `[\d.,]`. -/
def numRunChar (c : Char) : Bool := c.isDigit || c = '.' || c = ','

/-- The three `replace(x, "")` calls of demo1.py line 153, which amount to
filtering the three characters out. -/
def stripMarks (l : Chars) : Chars := l.filter (fun c => !(noiseChar c))

/-- Price cleaning of `get_product_details` (demo1.py lines 150-156):
strip the marks, find the first `[\d.,]+` run, then remove `,` and spaces
from the matched group; no match yields the empty string. -/
def priceFrom (t : Chars) : Chars :=
  let s := (stripMarks t).dropWhile (fun c => !(numRunChar c))
  if s = [] then []
  else (s.takeWhile numRunChar).filter (fun c => !(c = ',' || c = ' '))

/-- The parts of a product page that `get_product_details` reads out of the
parsed HTML.  BeautifulSoup selector logic is abstracted: each field holds
the text / attribute values the selectors would produce (`none` when the
corresponding element is absent). -/
structure Page where
  titleText : Option String
  finalPriceText : Option String
  oldPriceText : Option String
  galleryImgs : Option (List String)
  descImgs : Option (List String)
  descParas : Option (List String)
  videoSrcs : Option (List String)
  rawSpecs : List (String × String)
  skuSpans : Option (List String)
  modelSpan : Option (Option String)
  logoSrc : Option String
  infoTexts : Option (List String)
  termTexts : Option (List String)

/-- The record returned by `get_product_details` (demo1.py lines 307-324).
`oldPrice` is computed by the source but not returned, so it has no field. -/
structure Details where
  productNumber : String
  url : String
  shortDescription : String
  brand : String
  model : String
  skuNumber : String
  price : String
  images : List String
  moreImages : List String
  videos : List String
  specifications : List (String × String)
  logoUrl : String
  description : String
  information : String
  termsAndConditions : String
  currency : String
deriving DecidableEq

/-- Gallery image collection (demo1.py lines 170-184): skip empty sources,
keep only absolute (`http…`) or root-relative (`/…`) ones, normalize, and
deduplicate preserving first-seen order. -/
def collectImgs (cfg : Config) (seen : List String) : List String → List String
  | [] => []
  | src :: rest =>
    if src = "" then collectImgs cfg seen rest
    else if !(src.startsWith "http" || src.startsWith "/") then
      collectImgs cfg seen rest
    else
      let nurl := normalizeUrl cfg src
      if nurl = "" ∨ nurl ∈ seen then collectImgs cfg seen rest
      else nurl :: collectImgs cfg (seen ++ [nurl]) rest

/-- The extra description-tab filter (demo1.py line 206): template-looking
sources are skipped. -/
def isTemplateSrc (src : String) : Bool :=
  src.startsWith ":" || src.trim.startsWith "image." ||
    containsSub "imageSource".data src.data

/-- Description-tab image collection (demo1.py lines 195-213). -/
def collectMoreImgs (cfg : Config) (seen : List String) : List String → List String
  | [] => []
  | src :: rest =>
    if src = "" then collectMoreImgs cfg seen rest
    else if isTemplateSrc src then collectMoreImgs cfg seen rest
    else if !(src.startsWith "http" || src.startsWith "/") then
      collectMoreImgs cfg seen rest
    else
      let nurl := normalizeUrl cfg src
      if nurl = "" ∨ nurl ∈ seen then collectMoreImgs cfg seen rest
      else nurl :: collectMoreImgs cfg (seen ++ [nurl]) rest

/-- `skuNumber` extraction (demo1.py lines 242-246): first span text
starting with the SKU label, digits kept (`re.sub(r"\D", "", text)`). -/
def skuFromSpans : List String → String
  | [] => ""
  | t :: rest =>
    if "מק".data.isPrefixOf t.data then String.mk (t.data.filter Char.isDigit)
    else skuFromSpans rest

/-- `re.sub(r"^דגם\s*", "", text)` (demo1.py line 249). -/
def dropModelLabel (t : String) : String :=
  if "דגם".data.isPrefixOf t.data then
    String.mk ((t.data.drop "דגם".data.length).dropWhile
      (fun c => c = ' ' || c = '\t' || c = '\n' || c = '\r'))
  else t

/-- `get_product_details` (demo1.py lines 135-324) given the page contents
delivered by the fetch/parse oracle.  The fetch itself can fail, which the
caller (`scrape_with_retries`) sees as an exception; that case is handled
in the orchestration model below. -/
def getProductDetails (cfg : Config) (page : Page) (url : String) : Details :=
  let title := match page.titleText with | some t => t | none => ""
  let price := match page.finalPriceText with
    | some t => String.mk (priceFrom t.data)
    | none => ""
  let images := match page.galleryImgs with
    | some l => collectImgs cfg [] l
    | none => []
  let moreImages := match page.descImgs with
    | some l => collectMoreImgs cfg [] l
    | none => []
  let shortDesc := match page.descParas with | some l => l | none => []
  let videos := match page.videoSrcs with
    | some l => l.map (normalizeUrl cfg)
    | none => []
  let skuNumber := match page.skuSpans with | some l => skuFromSpans l | none => ""
  let model := match page.modelSpan with
    | some (some t) => dropModelLabel t
    | _ => ""
  let brand := match page.rawSpecs.find? (fun sp => sp.1.startsWith "מותג") with
    | some sp => sp.2
    | none => ""
  let specs := page.rawSpecs.filter (fun sp =>
    !(sp.1.startsWith "מק\"ט" || sp.1.startsWith "דגם" || sp.1.startsWith "מותג"))
  let logoUrl := match page.logoSrc with | some s => normalizeUrl cfg s | none => ""
  let information := match page.infoTexts with | some l => l | none => []
  let terms := match page.termTexts with | some l => l | none => []
  { productNumber := productNumberOf url
    url := url
    shortDescription := title
    brand := brand
    model := model
    skuNumber := skuNumber
    price := price
    images := images
    moreImages := moreImages
    videos := videos
    specifications := specs
    logoUrl := logoUrl
    description := if shortDesc = [] then "" else String.intercalate ", " shortDesc
    information := if information = [] then "" else String.intercalate ", " information
    termsAndConditions := if terms = [] then "" else String.intercalate ", " terms
    currency := "NIS" }

/-- The new links one listing page contributes (demo1.py lines 110-119):
each nonempty href is normalized against the page URL and kept if not yet
seen; `seen` grows as the page is scanned. -/
def collectNew (pageUrl : String) (seen : List String) : List String → List String
  | [] => []
  | h :: t =>
    if h = "" then collectNew pageUrl seen t
    else
      let link := normalizeLink pageUrl h
      if link ∈ seen then collectNew pageUrl seen t
      else link :: collectNew pageUrl (seen ++ [link]) t

/-- Result of one run of `extract_all_product_links`: the collected links,
the page URLs fetched (in order), and the per-page lists of new links for
the pages that were fetched and parsed successfully. -/
structure HarvestRes where
  links : List String
  pageUrls : List String
  newTrace : List (List String)
deriving DecidableEq

/-- The pagination loop of `extract_all_product_links`
(demo1.py lines 92-132).  `fetch url` returns the hrefs of the
`a.product-item-link` anchors of the page, or `none` when the GET / parse
fails (in which case the links collected so far are returned).  The loop
breaks when a page contributes zero new links.  `fuel` bounds the number of
iterations of the source's unbounded `while True`; every claim fixes the
trace, which forces termination within the given fuel. -/
def extractGo (fetch : String → Option (List String)) (c : String) :
    Nat → Nat → List String → List String → HarvestRes
  | 0, _, _, acc => ⟨acc, [], []⟩
  | n + 1, page, seen, acc =>
    let url := if page = 1 then c else c ++ "?p=" ++ Nat.repr page
    match fetch url with
    | none => ⟨acc, [url], []⟩
    | some hrefs =>
      let nw := collectNew url seen hrefs
      if nw.length = 0 then ⟨acc ++ nw, [url], [nw]⟩
      else
        let r := extractGo fetch c n (page + 1) (seen ++ nw) (acc ++ nw)
        ⟨r.links, url :: r.pageUrls, nw :: r.newTrace⟩

/-- `extract_all_product_links(category_url)`. -/
def extractAll (fetch : String → Option (List String)) (c : String)
    (fuel : Nat) : HarvestRes :=
  extractGo fetch c fuel 1 [] []

/-- Entry of the list returned by `download_images`. -/
structure ImgEntry where
  sourceImage : String
  salezImage : String
deriving DecidableEq

/-- Entry of the list returned by `download_videos`. -/
structure VEntry where
  sourceVideo : String
  salezVideo : String
deriving DecidableEq

/-- Observable side effects of the per-product pipeline: image / video GET
requests, media file writes and removals, video payload entries being
recorded, and a product record being appended to the category output file. -/
inductive Ev where
  | ireq (url : String)
  | iwrite (name : String)
  | vreq (url : String)
  | vwrite (name : String)
  | vremove (name : String)
  | vpayload (src salez : String)
  | append (productNumber : String)
deriving DecidableEq

deriving instance DecidableEq for Except

/-- Oracles for the effectful steps: page fetching, product scraping
(the outcome of `scrape_with_retries`), per-image GET success, the remote
video-exists check `(exists, salezVideo)`, per-video GET success and
webm→mp4 conversion success (keyed by the raw file name). -/
structure Oracles where
  fetchPage : String → Option (List String)
  scrape : String → Except Unit Details
  fetchImage : String → Bool
  videoCheck : String → Bool × String
  fetchVideo : String → Bool
  convert : String → Bool

/-- File name of one downloaded image (demo1.py lines 380-381). -/
def imgName (pfxName pid : String) (idx : Nat) (src : String) : String :=
  pfxName ++ pid ++ "_" ++ Nat.repr idx ++ imgExt src

def imgEntryFor (cfg : Config) (pfxName pid : String) (idx : Nat)
    (src : String) : ImgEntry :=
  ⟨src, cfg.imagePathPre ++ imgName pfxName pid idx src⟩

/-- The download loop of `download_images` (demo1.py lines 379-393): a
failed GET is logged and skipped, every other URL still gets processed. -/
def imagesGo (o : Oracles) (cfg : Config) (pfxName pid : String) :
    Nat → List String → List Ev × List ImgEntry
  | _, [] => ([], [])
  | idx, src :: rest =>
    let r := imagesGo o cfg pfxName pid (idx + 1) rest
    if o.fetchImage src then
      (Ev.ireq src :: Ev.iwrite (imgName pfxName pid idx src) :: r.1,
       imgEntryFor cfg pfxName pid idx src :: r.2)
    else (Ev.ireq src :: r.1, r.2)

/-- `download_images(product_url, image_urls, prefix, output_dir)`
(demo1.py lines 375-394).  The unguarded
`re.search(r"/(\d+)\.html", product_url).group(1)` on line 377 raises
(`AttributeError` on `None`) before any download when the URL has no
`/digits.html` segment; this is the `.error` case. -/
def downloadImages (o : Oracles) (cfg : Config) (purl : String)
    (urls : List String) (pfxName : String) :
    List Ev × Except Unit (List ImgEntry) :=
  match pidSearchS purl with
  | none => ([], .error ())
  | some pid =>
    let r := imagesGo o cfg pfxName pid 1 urls
    (r.1, .ok r.2)

/-- Raw video file name (demo1.py line 413). -/
def rawVidName (cfg : Config) (pid : String) (idx : Nat) (ext : String) : String :=
  cfg.videoNamePre ++ pid ++ "_" ++ Nat.repr idx ++ ext

/-- The body of the `download_videos` loop for one URL
(demo1.py lines 403-440): ask the video-exists service first and reuse the
served path if it exists; otherwise download, convert `.webm` to `.mp4`
(removing the raw file), and record the payload entry.  Any failure while
downloading or converting re-raises (the `.error` case). -/
def processVideoItem (o : Oracles) (cfg : Config) (pid : String) (idx : Nat)
    (src : String) : List Ev × Except Unit VEntry :=
  let chk := o.videoCheck src
  if chk.1 then ([Ev.vpayload src chk.2], .ok ⟨src, chk.2⟩)
  else
    let ext := vidExt src
    let raw := rawVidName cfg pid idx ext
    if o.fetchVideo src then
      if ext = ".webm" then
        let mp4 := pyReplaceS raw ".webm" ".mp4"
        if o.convert raw then
          ([Ev.vreq src, Ev.vwrite raw, Ev.vwrite mp4, Ev.vremove raw,
            Ev.vpayload src (cfg.videoPathPre ++ mp4)],
           .ok ⟨src, cfg.videoPathPre ++ mp4⟩)
        else ([Ev.vreq src, Ev.vwrite raw], .error ())
      else
        ([Ev.vreq src, Ev.vwrite raw, Ev.vpayload src (cfg.videoPathPre ++ raw)],
         .ok ⟨src, cfg.videoPathPre ++ raw⟩)
    else ([Ev.vreq src], .error ())

/-- The `download_videos` loop over all of a product's video URLs: the
first failing item aborts the whole batch. -/
def videosGo (o : Oracles) (cfg : Config) (pid : String) :
    Nat → List String → List Ev × Except Unit (List VEntry)
  | _, [] => ([], .ok [])
  | idx, src :: rest =>
    let it := processVideoItem o cfg pid idx src
    match it.2 with
    | .error e => (it.1, .error e)
    | .ok entry =>
      let r := videosGo o cfg pid (idx + 1) rest
      (it.1 ++ r.1, r.2.map (fun l => entry :: l))

/-- `download_videos(product_url, video_urls)` (demo1.py lines 397-442),
with the same unguarded product-id regex as `download_images`
(line 399) raising before any processing when it does not match. -/
def downloadVideos (o : Oracles) (cfg : Config) (purl : String)
    (urls : List String) : List Ev × Except Unit (List VEntry) :=
  match pidSearchS purl with
  | none => ([], .error ())
  | some pid => videosGo o cfg pid 1 urls

/-- `flatten_media` output merged with `flatten_specs` output and the
category fields the orchestrator adds (demo1.py lines 445-469, 604-611):
media lists become comma-joined strings, specifications become indexed
`key{i}` / `value{i}` fields. -/
structure FlatRec where
  productNumber : String
  url : String
  shortDescription : String
  brand : String
  model : String
  skuNumber : String
  price : String
  logoUrl : String
  description : String
  information : String
  termsAndConditions : String
  currency : String
  images : String
  sourceImages : String
  moreImages : String
  sourceMoreImages : String
  videos : String
  sourceVideos : String
  specPairs : List (String × String)
  categorySlug : String
  categoryName : String
  categoryLink : String
deriving DecidableEq, Inhabited

/-- One category of the task input. -/
structure Category where
  categorySlug : String
  categoryName : String
  categoryLink : String
deriving DecidableEq

/-- `flatten_media` (demo1.py lines 445-459) followed by `flatten_specs`
(lines 462-469) on `{**details, "images": imgs, "moreImages": more,
"videos": vids}`, followed by the category fields added on lines 609-611. -/
def flattenRecord (d : Details) (imgs more : List ImgEntry) (vids : List VEntry)
    (cat : Category) : FlatRec :=
  { productNumber := d.productNumber
    url := d.url
    shortDescription := d.shortDescription
    brand := d.brand
    model := d.model
    skuNumber := d.skuNumber
    price := d.price
    logoUrl := d.logoUrl
    description := d.description
    information := d.information
    termsAndConditions := d.termsAndConditions
    currency := d.currency
    images := String.intercalate ", " (imgs.map (fun e => e.salezImage))
    sourceImages := String.intercalate ", " (imgs.map (fun e => e.sourceImage))
    moreImages := String.intercalate ", " (more.map (fun e => e.salezImage))
    sourceMoreImages := String.intercalate ", " (more.map (fun e => e.sourceImage))
    videos := String.intercalate ", " (vids.map (fun e => e.salezVideo))
    sourceVideos := String.intercalate ", " (vids.map (fun e => e.sourceVideo))
    specPairs := (d.specifications.enumFrom 1).flatMap
      (fun p => [("key" ++ Nat.repr p.1, p.2.1), ("value" ++ Nat.repr p.1, p.2.2)])
    categorySlug := cat.categorySlug
    categoryName := cat.categoryName
    categoryLink := cat.categoryLink }

/-- The per-product body of `main`'s loop (demo1.py lines 588-631): scrape
with retries (failure is caught and the product skipped), skip when
`productNumber` is empty, download both image sets and the videos (any
raised exception is caught by the outer handler and skips the product),
then flatten and append the record to the category output file. -/
def processUrl (o : Oracles) (cfg : Config) (cat : Category) (url : String) :
    List Ev × Option FlatRec :=
  match o.scrape url with
  | .error _ => ([], none)
  | .ok d =>
    if d.productNumber = "" then ([], none)
    else
      let i1 := downloadImages o cfg url d.images cfg.imageNamePre
      match i1.2 with
      | .error _ => (i1.1, none)
      | .ok imgs =>
        let i2 := downloadImages o cfg url d.moreImages cfg.moreImageNamePre
        match i2.2 with
        | .error _ => (i1.1 ++ i2.1, none)
        | .ok more =>
          let v := downloadVideos o cfg url d.videos
          match v.2 with
          | .error _ => (i1.1 ++ i2.1 ++ v.1, none)
          | .ok vids =>
            let flat := flattenRecord d imgs more vids cat
            (i1.1 ++ i2.1 ++ v.1 ++ [Ev.append flat.productNumber], some flat)

/-- The records appended to one category's output file, in order
(the file is cleared to `[]` first, demo1.py lines 572-578). -/
def processLinks (o : Oracles) (cfg : Config) (cat : Category) :
    List String → List FlatRec
  | [] => []
  | url :: rest =>
    match (processUrl o cfg cat url).2 with
    | none => processLinks o cfg cat rest
    | some flat => flat :: processLinks o cfg cat rest

/-- One category of `main`'s outer loop (demo1.py lines 553-651). -/
def processCategory (o : Oracles) (cfg : Config) (fuel : Nat)
    (cat : Category) : List FlatRec :=
  processLinks o cfg cat (extractAll o.fetchPage cat.categoryLink fuel).links

/-- The task input of `main`. -/
structure TaskData where
  taskId : String
  categories : List Category

/-- The payload `complete_task` posts (demo1.py lines 513-519). -/
structure Report where
  task : String
  failedCount : Nat
  successCount : Nat
deriving DecidableEq

/-- `main(data)` (demo1.py lines 545-661): per-category output files and
the completion report, which the source builds as `failed = 0` and
`success = len(task_categories)` (lines 654-655). -/
def mainRun (o : Oracles) (cfg : Config) (fuel : Nat) (data : TaskData) :
    List (List FlatRec) × Report :=
  (data.categories.map (processCategory o cfg fuel),
   ⟨data.taskId, 0, data.categories.length⟩)

/-- Events of the `scrape_with_retries` loop: numbered attempts and the
fixed-delay sleeps after failed attempts. -/
inductive REv where
  | att (i : Nat)
  | sleep (d : Nat)
deriving DecidableEq

/-- The retry loop of `scrape_with_retries` (demo1.py lines 328-337),
generalised over the attempt outcome oracle; `attempt i` is the result of
the `i`-th `get_product_details` call.  `last` models the `last_exc`
variable; exhausting all attempts raises it (`.error (some e)`), and the
degenerate `retries = 0` case re-raises `None` (`.error none`). -/
def retryGo (attempt : Nat → Except String Details) (delay : Nat) :
    Nat → Nat → Option String → List REv × Except (Option String) Details
  | _, 0, last => ([], .error last)
  | i, k + 1, _last =>
    match attempt i with
    | .ok v => ([REv.att i], .ok v)
    | .error e =>
      let r := retryGo attempt delay (i + 1) k (some e)
      (REv.att i :: REv.sleep delay :: r.1, r.2)

/-- `scrape_with_retries(url)` with `DETAIL_RETRIES = retries` and
`RETRY_DELAY = delay`. -/
def scrapeWithRetries (attempt : Nat → Except String Details) (delay : Nat)
    (retries : Nat) : List REv × Except (Option String) Details :=
  retryGo attempt delay 1 retries none

def cfg0 : Config :=
  { domain := "http://shop.example"
    imageNamePre := "img_"
    moreImageNamePre := "more_"
    videoNamePre := "vid_"
    imagePathPre := "/media/images/"
    videoPathPre := "/media/videos/" }

def cat0 : Category :=
  { categorySlug := "tvs"
    categoryName := "televisions"
    categoryLink := "http://shop.example/cat" }

def data0 : TaskData := { taskId := "task-1", categories := [cat0] }

def d0 : Details :=
  { productNumber := "77", url := "http://shop.example/77.html"
    shortDescription := "tv", brand := "", model := "", skuNumber := ""
    price := "1299.90", images := ["http://img.example/1.jpg"]
    moreImages := [], videos := ["http://vid.example/a.mp4"]
    specifications := [], logoUrl := "", description := ""
    information := "", termsAndConditions := "", currency := "NIS" }

/-- Oracle for a run where everything succeeds and the one product's video
already exists on the server. -/
def oAllOk : Oracles :=
  { fetchPage := fun u =>
      if u = "http://shop.example/cat" then some ["/77.html"]
      else if u = "http://shop.example/cat?p=2" then some []
      else none
    scrape := fun u =>
      if u = "http://shop.example/77.html" then .ok d0 else .error ()
    fetchImage := fun _ => true
    videoCheck := fun _ => (true, "/srv/a.mp4")
    fetchVideo := fun _ => true
    convert := fun _ => true }

/-- Details with an empty product number (skip case of the orchestrator). -/
def dNoPN : Details := { d0 with productNumber := "" }

def oNoPN : Oracles := { oAllOk with scrape := fun _ => .ok dNoPN }

/-- Oracle whose product scraping always fails (retries exhausted). -/
def oNoScrape : Oracles := { oAllOk with scrape := fun _ => .error () }

/-- Category listing with new-link counts 5, 5, 5, 0 over four pages. -/
def fetchC1 : String → Option (List String) := fun u =>
  if u = "http://shop.example/cat" then
    some ["/a1.html", "/a2.html", "/a3.html", "/a4.html", "/a5.html"]
  else if u = "http://shop.example/cat?p=2" then
    some ["/b1.html", "/b2.html", "/b3.html", "/b4.html", "/b5.html"]
  else if u = "http://shop.example/cat?p=3" then
    some ["/c1.html", "/c2.html", "/c3.html", "/c4.html", "/c5.html"]
  else if u = "http://shop.example/cat?p=4" then some []
  else none

/-- Oracle where one image URL fails and every video download fails. -/
def oMediaFail : Oracles :=
  { oAllOk with
    fetchImage := fun u => !(u = "http://img.example/bad.jpg")
    videoCheck := fun _ => (false, "")
    fetchVideo := fun _ => false }

/-- Oracle for a fresh `.webm` video that downloads and converts fine. -/
def oWebm : Oracles :=
  { oAllOk with
    videoCheck := fun _ => (false, "")
    fetchVideo := fun _ => true
    convert := fun _ => true }

/-- Oracle for a fresh `.webm` video whose download succeeds but whose
`.mp4` conversion fails. -/
def oConvFail : Oracles :=
  { oAllOk with
    videoCheck := fun _ => (false, "")
    fetchVideo := fun _ => true
    convert := fun _ => false }

/-- Attempt oracle for the retry model: fails once, then succeeds. -/
def attemptOnce : Nat → Except String Details := fun i =>
  if i = 2 then .ok d0 else .error ("boom" ++ Nat.repr i)

/-- Attempt oracle that always fails. -/
def attemptNever : Nat → Except String Details := fun i =>
  .error ("boom" ++ Nat.repr i)

/-- A product URL whose path has digits (so `productNumber` is nonempty by
the fallback regex) but no `/digits.html` segment (so the unguarded media
regex finds nothing). -/
def urlC10 : String := "https://www.payngo.co.il/57abc.html"

def dC10 : Details := { d0 with url := urlC10, productNumber := "57" }

def oC10 : Oracles :=
  { oAllOk with scrape := fun u => if u = urlC10 then .ok dC10 else .error () }

/-- A product page whose price text has a currency sign, a no-break space,
a thousands separator and a right-to-left mark. -/
def pageC3 : Page :=
  { titleText := some "tv"
    finalPriceText := some "\u20AA\u00A01,299.90\u200F"
    oldPriceText := none
    galleryImgs := none
    descImgs := none
    descParas := none
    videoSrcs := none
    rawSpecs := []
    skuSpans := none
    modelSpan := none
    logoSrc := none
    infoTexts := none
    termTexts := none }

def pageNoPrice : Page := { pageC3 with finalPriceText := none }

/-- The listing-page URLs `extract_all_product_links` builds, starting at
page `p`: the bare category URL for page 1 and `?p={page}` afterwards. -/
def pageUrlsFrom (c : String) : Nat → Nat → List String
  | _, 0 => []
  | p, k + 1 =>
    (if p = 1 then c else c ++ "?p=" ++ Nat.repr p) :: pageUrlsFrom c (p + 1) k

/-! ### Supporting lemmas -/

theorem takeWhile_append_all {p : Char → Bool} {l1 : Chars} (l2 : Chars)
    (h : ∀ c ∈ l1, p c) :
    (l1 ++ l2).takeWhile p = l1 ++ l2.takeWhile p := by
  induction l1 with
  | nil => simp
  | cons a t ih =>
    have ha : p a := h a (List.mem_cons_self a t)
    simp only [List.cons_append, List.takeWhile_cons_of_pos ha]
    rw [ih (fun c hc => h c (List.mem_cons_of_mem a hc))]

theorem dropWhile_append_all {p : Char → Bool} {l1 : Chars} (l2 : Chars)
    (h : ∀ c ∈ l1, p c) :
    (l1 ++ l2).dropWhile p = l2.dropWhile p := by
  induction l1 with
  | nil => simp
  | cons a t ih =>
    have ha : p a := h a (List.mem_cons_self a t)
    simp only [List.cons_append, List.dropWhile_cons_of_pos ha]
    exact ih (fun c hc => h c (List.mem_cons_of_mem a hc))

theorem takeWhile_eq_nil_of_head {p : Char → Bool} {l : Chars}
    (h : ∀ c ∈ l.take 1, ¬ p c) : l.takeWhile p = [] := by
  cases l with
  | nil => rfl
  | cons a t =>
    have : ¬ p a := h a (by simp)
    simp [List.takeWhile_cons_of_neg this]

theorem dropWhile_eq_self_of_head {p : Char → Bool} {l : Chars} {a : Char}
    {t : Chars} (hl : l = a :: t) (h : ¬ p a) : l.dropWhile p = l := by
  subst hl
  simp [List.dropWhile_cons_of_neg h]

/-! ### C9: completion report counts -/

/-- C9: for every run, the completion report built at the end of `main`
carries `successCount` equal to the number of categories of the task and
`failedCount = 0`; it does not depend on the oracles (how many products
succeeded or failed), the configuration, or the harvest fuel. -/
theorem claim_C9 (o o' : Oracles) (cfg cfg' : Config) (fuel fuel' : Nat)
    (data : TaskData) :
    (mainRun o cfg fuel data).2 = ⟨data.taskId, 0, data.categories.length⟩ ∧
    (mainRun o cfg fuel data).2 = (mainRun o' cfg' fuel' data).2 :=
  ⟨rfl, rfl⟩

/-! ### C7: reusing already-uploaded videos -/

/-- C7: when the existence check answers `exists = true` with served path
`x`, the `download_videos` body makes no download request for that URL,
records exactly the payload entry `{sourceVideo := src, salezVideo := x}`,
and the loop continues with the remaining URLs. -/
theorem claim_C7 (o : Oracles) (cfg : Config) (pid : String) (idx : Nat)
    (src x : String) (rest : List String)
    (h : o.videoCheck src = (true, x)) :
    processVideoItem o cfg pid idx src = ([Ev.vpayload src x], .ok ⟨src, x⟩) ∧
    Ev.vreq src ∉ (processVideoItem o cfg pid idx src).1 ∧
    videosGo o cfg pid idx (src :: rest) =
      (Ev.vpayload src x :: (videosGo o cfg pid (idx + 1) rest).1,
       (videosGo o cfg pid (idx + 1) rest).2.map (fun l => ⟨src, x⟩ :: l)) := by
  have h1 : processVideoItem o cfg pid idx src = ([Ev.vpayload src x], .ok ⟨src, x⟩) := by
    unfold processVideoItem
    rw [h]
    rfl
  refine ⟨h1, ?_, ?_⟩
  · rw [h1]
    simp
  · show (let it := processVideoItem o cfg pid idx src
          match it.2 with
          | Except.error e => (it.1, Except.error e)
          | Except.ok entry =>
            let r := videosGo o cfg pid (idx + 1) rest
            (it.1 ++ r.1, r.2.map (fun l => entry :: l))) = _
    rw [h1]
    rfl

theorem claim_C7_witness :
    processVideoItem oAllOk cfg0 "77" 1 "http://vid.example/a.mp4" =
      ([Ev.vpayload "http://vid.example/a.mp4" "/srv/a.mp4"],
       .ok ⟨"http://vid.example/a.mp4", "/srv/a.mp4"⟩) ∧
    Ev.vreq "http://vid.example/a.mp4" ∉
      (processVideoItem oAllOk cfg0 "77" 1 "http://vid.example/a.mp4").1 ∧
    videosGo oAllOk cfg0 "77" 1 ["http://vid.example/a.mp4"] =
      (Ev.vpayload "http://vid.example/a.mp4" "/srv/a.mp4" ::
         (videosGo oAllOk cfg0 "77" (1 + 1) []).1,
       (videosGo oAllOk cfg0 "77" (1 + 1) []).2.map
         (fun l => ⟨"http://vid.example/a.mp4", "/srv/a.mp4"⟩ :: l)) :=
  claim_C7 oAllOk cfg0 "77" 1 "http://vid.example/a.mp4" "/srv/a.mp4" [] rfl

/-! ### C10: unguarded product-id regex in the media downloaders -/

/-- C10: `download_images` and `download_videos` apply `.group(1)` to an
unguarded `re.search(r"/(\d+)\.html", product_url)`, so when the URL has no
digits-then-`.html` segment both raise before processing any media (empty
event trace, error result); `get_product_details`' fallback accepts digits
anywhere in the path, so the concrete URL `urlC10` has the nonempty
`productNumber` `"57"` yet its per-product processing is skipped with no
media event at all. -/
theorem claim_C10 :
    (∀ (o : Oracles) (cfg : Config) (purl : String) (urls : List String)
       (pfxName : String), pidSearchS purl = none →
       downloadImages o cfg purl urls pfxName = ([], .error ())) ∧
    (∀ (o : Oracles) (cfg : Config) (purl : String) (urls : List String),
       pidSearchS purl = none →
       downloadVideos o cfg purl urls = ([], .error ())) ∧
    productNumberOf urlC10 = "57" ∧
    pidSearchS urlC10 = none ∧
    (∀ (o : Oracles) (cfg : Config) (cat : Category) (d : Details),
       o.scrape urlC10 = .ok d → d.productNumber ≠ "" →
       processUrl o cfg cat urlC10 = ([], none)) := by
  have hpid : pidSearchS urlC10 = none := by decide
  refine ⟨?_, ?_, by decide, hpid, ?_⟩
  · intro o cfg purl urls pfxName h
    unfold downloadImages
    rw [h]
  · intro o cfg purl urls h
    unfold downloadVideos
    rw [h]
  · intro o cfg cat d hs hpn
    unfold processUrl
    rw [hs]
    simp only [if_neg hpn]
    have hi : downloadImages o cfg urlC10 d.images cfg.imageNamePre = ([], .error ()) := by
      unfold downloadImages
      rw [hpid]
    rw [hi]

theorem claim_C10_witness :
    downloadImages oC10 cfg0 urlC10 dC10.images cfg0.imageNamePre = ([], .error ()) ∧
    downloadVideos oC10 cfg0 urlC10 dC10.videos = ([], .error ()) ∧
    productNumberOf urlC10 = "57" ∧
    pidSearchS urlC10 = none ∧
    processUrl oC10 cfg0 cat0 urlC10 = ([], none) :=
  ⟨claim_C10.1 oC10 cfg0 urlC10 dC10.images cfg0.imageNamePre (by decide),
   claim_C10.2.1 oC10 cfg0 urlC10 dC10.videos (by decide),
   claim_C10.2.2.1, claim_C10.2.2.2.1,
   claim_C10.2.2.2.2 oC10 cfg0 cat0 dC10 (by decide) (by decide)⟩

/-! ### C2: no record with an empty productNumber is appended -/

theorem processUrl_some_productNumber (o : Oracles) (cfg : Config)
    (cat : Category) (url : String) (r : FlatRec)
    (h : (processUrl o cfg cat url).2 = some r) : r.productNumber ≠ "" := by
  unfold processUrl at h
  split at h
  · simp at h
  next d hd =>
    split at h
    · simp at h
    next hpn =>
      dsimp only at h
      split at h
      · simp at h
      next imgs hi =>
        split at h
        · simp at h
        next more hm =>
          split at h
          · simp at h
          next vids hv =>
            simp only [Option.some.injEq] at h
            rw [← h]
            exact hpn

theorem processLinks_productNumber (o : Oracles) (cfg : Config)
    (cat : Category) (links : List String) :
    ∀ r ∈ processLinks o cfg cat links, r.productNumber ≠ "" := by
  induction links with
  | nil => intro r hr; simp [processLinks] at hr
  | cons u rest ih =>
    intro r hr
    unfold processLinks at hr
    cases hp : (processUrl o cfg cat u).2 with
    | none => rw [hp] at hr; exact ih r hr
    | some flat =>
      rw [hp] at hr
      rcases List.mem_cons.mp hr with h1 | h2
      · exact h1 ▸ processUrl_some_productNumber o cfg cat u flat hp
      · exact ih r h2

/-- C2: the orchestrator's per-product loop skips a product whose scraped
`productNumber` is empty before any media download or file write (empty
event trace, no record), so every record appended to any category output
file of any run has a nonempty `productNumber`. -/
theorem claim_C2 :
    (∀ (o : Oracles) (cfg : Config) (fuel : Nat) (data : TaskData),
       ∀ recs ∈ (mainRun o cfg fuel data).1, ∀ r ∈ recs,
         r.productNumber ≠ "") ∧
    (∀ (o : Oracles) (cfg : Config) (cat : Category) (url : String)
       (d : Details), o.scrape url = .ok d → d.productNumber = "" →
       processUrl o cfg cat url = ([], none)) := by
  constructor
  · intro o cfg fuel data recs hrecs r hr
    simp only [mainRun, List.mem_map] at hrecs
    rcases hrecs with ⟨cat, _hcat, heq⟩
    rw [← heq] at hr
    exact processLinks_productNumber o cfg cat _ r hr
  · intro o cfg cat url d hs hpn
    unfold processUrl
    rw [hs]
    dsimp only
    rw [if_pos hpn]

theorem claim_C2_witness :
    (processCategory oAllOk cfg0 3 cat0).headI.productNumber ≠ "" ∧
    processUrl oNoPN cfg0 cat0 "http://shop.example/77.html" = ([], none) :=
  ⟨claim_C2.1 oAllOk cfg0 3 data0 (processCategory oAllOk cfg0 3 cat0)
      (by simp [mainRun, data0])
      (processCategory oAllOk cfg0 3 cat0).headI (by decide),
   claim_C2.2 oNoPN cfg0 cat0 "http://shop.example/77.html" dNoPN rfl rfl⟩

/-! ### C5: asymmetric failure handling between images and videos -/

theorem imagesGo_entries (o : Oracles) (cfg : Config) (pfxName pid : String) :
    ∀ (urls : List String) (idx : Nat),
    (imagesGo o cfg pfxName pid idx urls).2 =
      (List.enumFrom idx urls).filterMap (fun p =>
        if o.fetchImage p.2 then some (imgEntryFor cfg pfxName pid p.1 p.2)
        else none) := by
  intro urls
  induction urls with
  | nil => intro idx; rfl
  | cons u rest ih =>
    intro idx
    by_cases hf : o.fetchImage u
    · simp only [imagesGo, hf, if_pos, List.enumFrom, List.filterMap_cons, ih]
    · simp only [imagesGo, hf, if_neg, List.enumFrom, List.filterMap_cons, ih]
      simp [hf]

theorem imagesGo_requests (o : Oracles) (cfg : Config) (pfxName pid : String) :
    ∀ (urls : List String) (idx : Nat), ∀ u ∈ urls,
    Ev.ireq u ∈ (imagesGo o cfg pfxName pid idx urls).1 := by
  intro urls
  induction urls with
  | nil => intro idx u hu; simp at hu
  | cons v rest ih =>
    intro idx u hu
    rcases List.mem_cons.mp hu with h1 | h2
    · subst h1
      by_cases hf : o.fetchImage u <;> simp [imagesGo, hf]
    · have := ih (idx + 1) u h2
      by_cases hf : o.fetchImage v <;> simp [imagesGo, hf, this]

theorem videosGo_error (o : Oracles) (cfg : Config) (pid : String) :
    ∀ (urls : List String) (idx : Nat) (u : String), u ∈ urls →
    (∀ j, (processVideoItem o cfg pid j u).2 = .error ()) →
    (videosGo o cfg pid idx urls).2 = .error () := by
  intro urls
  induction urls with
  | nil => intro idx u hu; simp at hu
  | cons v rest ih =>
    intro idx u hu herr
    cases hit : (processVideoItem o cfg pid idx v).2 with
    | error e =>
      unfold videosGo
      dsimp only
      rw [hit]
    | ok entry =>
      have hne : v ≠ u := by
        intro hvu
        rw [hvu, herr idx] at hit
        simp at hit
      have hu2 : u ∈ rest := by
        rcases List.mem_cons.mp hu with h1 | h2
        · exact absurd h1.symm hne
        · exact h2
      unfold videosGo
      dsimp only
      rw [hit, ih (idx + 1) u hu2 herr]
      rfl

/-- A video that is not already on the server and whose GET fails makes the
loop body error at every position (demo1.py line 441 re-raises). -/
theorem processVideoItem_dlfail (o : Oracles) (cfg : Config) (pid u : String)
    (hchk : (o.videoCheck u).1 = false) (hfet : o.fetchVideo u = false) :
    ∀ j, (processVideoItem o cfg pid j u).2 = .error () := by
  intro j
  rcases hc : o.videoCheck u with ⟨b, y⟩
  have hb : b = false := by rw [hc] at hchk; exact hchk
  subst hb
  unfold processVideoItem
  rw [hc, hfet]
  rfl

/-- A fresh `.webm` video that downloads fine but whose `ffmpeg` conversion
fails makes the loop body error at every position (demo1.py lines 424-441:
the exception from `check=True` re-raises). -/
theorem processVideoItem_convfail (o : Oracles) (cfg : Config) (pid u : String)
    (hchk : (o.videoCheck u).1 = false) (hfet : o.fetchVideo u = true)
    (hext : vidExt u = ".webm")
    (hconv : ∀ j, o.convert (rawVidName cfg pid j ".webm") = false) :
    ∀ j, (processVideoItem o cfg pid j u).2 = .error () := by
  intro j
  rcases hc : o.videoCheck u with ⟨b, y⟩
  have hb : b = false := by rw [hc] at hchk; exact hchk
  subst hb
  unfold processVideoItem
  rw [hc]
  dsimp only
  rw [hfet, hext, hconv j]
  rfl

/-- C5: failure handling is asymmetric between the media kinds.  A failed
image GET only omits that item: the entries returned by the
`download_images` loop are exactly those of the successfully fetched URLs,
in order, and every URL (also those after a failure) is still requested.
A failure on one video — whether the download GET fails or the
`.webm`-to-`.mp4` conversion fails — makes `download_videos` propagate the
exception (error result, aborting the whole per-product video batch), and
the per-product handler then skips the whole product (no record
appended). -/
theorem claim_C5 :
    (∀ (o : Oracles) (cfg : Config) (pfxName pid : String)
       (urls : List String) (idx : Nat),
       (imagesGo o cfg pfxName pid idx urls).2 =
         (List.enumFrom idx urls).filterMap (fun p =>
           if o.fetchImage p.2 then some (imgEntryFor cfg pfxName pid p.1 p.2)
           else none) ∧
       ∀ u ∈ urls, Ev.ireq u ∈ (imagesGo o cfg pfxName pid idx urls).1) ∧
    (∀ (o : Oracles) (cfg : Config) (pid : String) (urls : List String)
       (idx : Nat) (u : String), u ∈ urls →
       (o.videoCheck u).1 = false → o.fetchVideo u = false →
       (videosGo o cfg pid idx urls).2 = .error ()) ∧
    (∀ (o : Oracles) (cfg : Config) (pid : String) (urls : List String)
       (idx : Nat) (u : String), u ∈ urls →
       (o.videoCheck u).1 = false → o.fetchVideo u = true →
       vidExt u = ".webm" →
       (∀ j, o.convert (rawVidName cfg pid j ".webm") = false) →
       (videosGo o cfg pid idx urls).2 = .error ()) ∧
    (∀ (o : Oracles) (cfg : Config) (cat : Category) (url : String)
       (d : Details), o.scrape url = .ok d → d.productNumber ≠ "" →
       (downloadVideos o cfg url d.videos).2 = .error () →
       (processUrl o cfg cat url).2 = none) := by
  refine ⟨?_, ?_, ?_, ?_⟩
  · intro o cfg pfxName pid urls idx
    exact ⟨imagesGo_entries o cfg pfxName pid urls idx,
           imagesGo_requests o cfg pfxName pid urls idx⟩
  · intro o cfg pid urls idx u hu hchk hfet
    exact videosGo_error o cfg pid urls idx u hu
      (processVideoItem_dlfail o cfg pid u hchk hfet)
  · intro o cfg pid urls idx u hu hchk hfet hext hconv
    exact videosGo_error o cfg pid urls idx u hu
      (processVideoItem_convfail o cfg pid u hchk hfet hext hconv)
  · intro o cfg cat url d hs hpn hv
    unfold processUrl
    rw [hs]
    dsimp only
    rw [if_neg hpn]
    cases h1 : (downloadImages o cfg url d.images cfg.imageNamePre).2 with
    | error e => rfl
    | ok imgs =>
      dsimp only
      cases h2 : (downloadImages o cfg url d.moreImages cfg.moreImageNamePre).2 with
      | error e => rfl
      | ok more =>
        dsimp only
        rw [hv]

theorem claim_C5_witness :
    (imagesGo oMediaFail cfg0 "img_" "77" 1
        ["http://img.example/1.jpg", "http://img.example/bad.jpg",
         "http://img.example/2.jpg"]).2 =
      (List.enumFrom 1
        ["http://img.example/1.jpg", "http://img.example/bad.jpg",
         "http://img.example/2.jpg"]).filterMap (fun p =>
          if oMediaFail.fetchImage p.2 then
            some (imgEntryFor cfg0 "img_" "77" p.1 p.2)
          else none) ∧
    Ev.ireq "http://img.example/bad.jpg" ∈
      (imagesGo oMediaFail cfg0 "img_" "77" 1
        ["http://img.example/1.jpg", "http://img.example/bad.jpg",
         "http://img.example/2.jpg"]).1 ∧
    (videosGo oMediaFail cfg0 "77" 1 ["http://vid.example/a.mp4"]).2 =
      .error () ∧
    (videosGo oConvFail cfg0 "77" 1 ["http://vid.example/a.webm"]).2 =
      .error () ∧
    (processUrl oMediaFail cfg0 cat0 "http://shop.example/77.html").2 = none :=
  ⟨(claim_C5.1 oMediaFail cfg0 "img_" "77"
      ["http://img.example/1.jpg", "http://img.example/bad.jpg",
       "http://img.example/2.jpg"] 1).1,
   (claim_C5.1 oMediaFail cfg0 "img_" "77"
      ["http://img.example/1.jpg", "http://img.example/bad.jpg",
       "http://img.example/2.jpg"] 1).2 "http://img.example/bad.jpg" (by decide),
   claim_C5.2.1 oMediaFail cfg0 "77" ["http://vid.example/a.mp4"] 1
     "http://vid.example/a.mp4" (by decide) (by decide) (by decide),
   claim_C5.2.2.1 oConvFail cfg0 "77" ["http://vid.example/a.webm"] 1
     "http://vid.example/a.webm" (by decide) (by decide) (by decide) (by decide)
     (fun _ => rfl),
   claim_C5.2.2.2 oMediaFail cfg0 cat0 "http://shop.example/77.html" d0
     rfl (by decide) (by decide)⟩

/-! ### C6: webm conversion and raw-file removal -/

theorem pyReplaceGo_nil (pat rep : Chars) (fuel : Nat) :
    pyReplaceGo pat rep fuel [] = [] := by
  cases fuel <;> rfl

/-- For a nonempty, non-self-overlapping pattern, replacing it in a string
that ends with it yields a string that ends with the replacement. -/
theorem pyReplaceGo_suffix (pat rep : Chars) (hpat : pat ≠ [])
    (hno : ∀ k < pat.length, 0 < k → ¬ pat.drop k <+: pat) :
    ∀ (fuel : Nat) (s : Chars), s.length ≤ fuel → s ≠ [] → pat <:+ s →
      rep <:+ pyReplaceGo pat rep fuel s := by
  have hplen : 0 < pat.length := List.length_pos.mpr hpat
  intro fuel
  induction fuel with
  | zero =>
    intro s hle hne _
    have : s = [] := List.length_eq_zero.mp (Nat.le_zero.mp hle)
    exact absurd this hne
  | succ f ih =>
    intro s hle hne hsuf
    match s, hne with
    | c :: t, _ =>
      by_cases hpre : pat.isPrefixOf (c :: t)
      · have hcond : pat ≠ [] ∧ pat.isPrefixOf (c :: t) := ⟨hpat, hpre⟩
        have hres : pyReplaceGo pat rep (f + 1) (c :: t) =
            rep ++ pyReplaceGo pat rep f ((c :: t).drop pat.length) := by
          conv_lhs => rw [pyReplaceGo]
          rw [if_pos hcond]
        set tail := (c :: t).drop pat.length with htail
        have hsplit : pat ++ tail = c :: t := by
          have hp : pat <+: c :: t := List.isPrefixOf_iff_prefix.mp hpre
          have := List.prefix_iff_eq_take.mp hp
          conv_rhs => rw [← List.take_append_drop pat.length (c :: t)]
          rw [htail, ← this]
        by_cases htn : tail = []
        · rw [hres, htn, pyReplaceGo_nil, List.append_nil]
        · have hsuf2 : pat <:+ pat ++ tail := by rw [hsplit]; exact hsuf
          obtain ⟨u, hu⟩ := hsuf2
          have hulen : u.length = tail.length := by
            have := congrArg List.length hu
            simp at this
            omega
          have htlen : 0 < tail.length := List.length_pos.mpr htn
          have hptail : pat <:+ tail := by
            by_cases hbig : pat.length ≤ tail.length
            · have h1 : (u ++ pat).drop u.length = pat := List.drop_left u pat
              have h2 : (pat ++ tail).drop u.length =
                  tail.drop (u.length - pat.length) := by
                have huleq : u.length = pat.length + (u.length - pat.length) := by
                  omega
                conv_lhs => rw [huleq]
                rw [List.drop_append]
              rw [hu, h2] at h1
              rw [← h1]
              exact List.drop_suffix _ _
            · exfalso
              have hul : u.length < pat.length := by omega
              have h1 : (u ++ pat).drop u.length = pat := List.drop_left u pat
              have h2 : (pat ++ tail).drop u.length = pat.drop u.length ++ tail :=
                List.drop_append_of_le_length (by omega)
              rw [hu, h2] at h1
              exact hno u.length hul (by omega) ⟨tail, h1⟩
          have htfl : tail.length ≤ f := by
            have h3 := congrArg List.length hsplit
            simp only [List.length_append, List.length_cons] at h3
            simp only [List.length_cons] at hle
            omega
          have := ih tail htfl htn hptail
          rw [hres]
          exact this.trans (List.suffix_append rep _)
      · have hcond : ¬ (pat ≠ [] ∧ pat.isPrefixOf (c :: t)) := by
          intro hc
          exact hpre hc.2
        have hres : pyReplaceGo pat rep (f + 1) (c :: t) =
            c :: pyReplaceGo pat rep f t := by
          conv_lhs => rw [pyReplaceGo]
          rw [if_neg hcond]
        have hlt : pat.length < (c :: t).length := by
          rcases Nat.lt_or_ge pat.length (c :: t).length with h | h
          · exact h
          · exfalso
            have : pat = c :: t :=
              hsuf.eq_of_length (Nat.le_antisymm hsuf.length_le h)
            exact hpre (List.isPrefixOf_iff_prefix.mpr (this ▸ List.prefix_refl _))
        obtain ⟨u, hu⟩ := hsuf
        have hul : 0 < u.length := by
          have h4 := congrArg List.length hu
          simp only [List.length_append, List.length_cons] at h4
          simp only [List.length_cons] at hlt
          omega
        match u, hul with
        | a :: u2, _ =>
          have hu2 : u2 ++ pat = t := by
            have : a = c ∧ u2 ++ pat = t := by
              rw [List.cons_append] at hu
              exact ⟨(List.cons.injEq _ _ _ _).mp hu |>.1,
                     (List.cons.injEq _ _ _ _).mp hu |>.2⟩
            exact this.2
          have htn : t ≠ [] := by
            intro h
            rw [h] at hu2
            simp at hu2
            exact hpat hu2.2
          have htle : t.length ≤ f := by
            have hcl : (c :: t).length ≤ f + 1 := hle
            simp only [List.length_cons] at hcl
            omega
          have := ih t htle htn ⟨u2, hu2⟩
          rw [hres]
          exact this.trans (List.suffix_cons c _)

/-- C6: a `.webm` video source whose download and conversion succeed
produces exactly the events download, raw write, mp4 write, raw removal,
then the payload entry; the served name ends in `.mp4`, and the raw
`.webm` file is removed (index 3) strictly before the payload entry is
recorded (index 4). -/
theorem claim_C6 (o : Oracles) (cfg : Config) (pid : String) (idx : Nat)
    (src : String)
    (hchk : (o.videoCheck src).1 = false)
    (hext : vidExt src = ".webm")
    (hfetch : o.fetchVideo src = true)
    (hconv : o.convert (rawVidName cfg pid idx ".webm") = true) :
    processVideoItem o cfg pid idx src =
      ([Ev.vreq src, Ev.vwrite (rawVidName cfg pid idx ".webm"),
        Ev.vwrite (pyReplaceS (rawVidName cfg pid idx ".webm") ".webm" ".mp4"),
        Ev.vremove (rawVidName cfg pid idx ".webm"),
        Ev.vpayload src (cfg.videoPathPre ++
          pyReplaceS (rawVidName cfg pid idx ".webm") ".webm" ".mp4")],
       .ok ⟨src, cfg.videoPathPre ++
          pyReplaceS (rawVidName cfg pid idx ".webm") ".webm" ".mp4"⟩) ∧
    ".mp4".data <:+ (cfg.videoPathPre ++
      pyReplaceS (rawVidName cfg pid idx ".webm") ".webm" ".mp4").data ∧
    (∃ i j : Nat, i < j ∧
      (processVideoItem o cfg pid idx src).1[i]? =
        some (Ev.vremove (rawVidName cfg pid idx ".webm")) ∧
      (processVideoItem o cfg pid idx src).1[j]? =
        some (Ev.vpayload src (cfg.videoPathPre ++
          pyReplaceS (rawVidName cfg pid idx ".webm") ".webm" ".mp4"))) := by
  have h1 : processVideoItem o cfg pid idx src =
      ([Ev.vreq src, Ev.vwrite (rawVidName cfg pid idx ".webm"),
        Ev.vwrite (pyReplaceS (rawVidName cfg pid idx ".webm") ".webm" ".mp4"),
        Ev.vremove (rawVidName cfg pid idx ".webm"),
        Ev.vpayload src (cfg.videoPathPre ++
          pyReplaceS (rawVidName cfg pid idx ".webm") ".webm" ".mp4")],
       .ok ⟨src, cfg.videoPathPre ++
          pyReplaceS (rawVidName cfg pid idx ".webm") ".webm" ".mp4"⟩) := by
    unfold processVideoItem
    dsimp only
    rw [hchk, hext, hfetch]
    simp only [Bool.false_eq_true, if_false, if_true]
    rw [if_pos hconv]
  have hdata : (rawVidName cfg pid idx ".webm").data =
      (cfg.videoNamePre ++ pid ++ "_" ++ Nat.repr idx).data ++ ".webm".data := by
    unfold rawVidName
    rw [String.data_append]
  have hmp4 : ".mp4".data <:+
      (pyReplaceS (rawVidName cfg pid idx ".webm") ".webm" ".mp4").data := by
    show ".mp4".data <:+
      pyReplaceC ".webm".data ".mp4".data (rawVidName cfg pid idx ".webm").data
    unfold pyReplaceC
    apply pyReplaceGo_suffix ".webm".data ".mp4".data (by decide)
      (by decide) _ _ le_rfl
    · rw [hdata]
      simp
    · rw [hdata]
      exact List.suffix_append _ _
  refine ⟨h1, ?_, ?_⟩
  · rw [String.data_append]
    exact hmp4.trans (List.suffix_append _ _)
  · rw [h1]
    exact ⟨3, 4, by omega, rfl, rfl⟩

theorem claim_C6_witness :
    processVideoItem oWebm cfg0 "77" 1 "http://vid.example/a.webm" =
      ([Ev.vreq "http://vid.example/a.webm",
        Ev.vwrite (rawVidName cfg0 "77" 1 ".webm"),
        Ev.vwrite (pyReplaceS (rawVidName cfg0 "77" 1 ".webm") ".webm" ".mp4"),
        Ev.vremove (rawVidName cfg0 "77" 1 ".webm"),
        Ev.vpayload "http://vid.example/a.webm" (cfg0.videoPathPre ++
          pyReplaceS (rawVidName cfg0 "77" 1 ".webm") ".webm" ".mp4")],
       .ok ⟨"http://vid.example/a.webm", cfg0.videoPathPre ++
          pyReplaceS (rawVidName cfg0 "77" 1 ".webm") ".webm" ".mp4"⟩) ∧
    ".mp4".data <:+ (cfg0.videoPathPre ++
      pyReplaceS (rawVidName cfg0 "77" 1 ".webm") ".webm" ".mp4").data ∧
    (∃ i j : Nat, i < j ∧
      (processVideoItem oWebm cfg0 "77" 1 "http://vid.example/a.webm").1[i]? =
        some (Ev.vremove (rawVidName cfg0 "77" 1 ".webm")) ∧
      (processVideoItem oWebm cfg0 "77" 1 "http://vid.example/a.webm").1[j]? =
        some (Ev.vpayload "http://vid.example/a.webm" (cfg0.videoPathPre ++
          pyReplaceS (rawVidName cfg0 "77" 1 ".webm") ".webm" ".mp4"))) :=
  claim_C6 oWebm cfg0 "77" 1 "http://vid.example/a.webm"
    rfl (by decide) rfl rfl

/-! ### C8: retry policy of scrape_with_retries -/

theorem retryGo_success (attempt : Nat → Except String Details) (delay : Nat) :
    ∀ (m f i : Nat) (last : Option String) (v : Details), m < f →
      (∀ j, i ≤ j → j < i + m → (attempt j).isOk = false) →
      attempt (i + m) = .ok v →
      retryGo attempt delay i f last =
        ((List.range' i m).flatMap (fun j => [REv.att j, REv.sleep delay]) ++
           [REv.att (i + m)], .ok v) := by
  intro m
  induction m with
  | zero =>
    intro f i last v hf _hfail hok
    match f, hf with
    | g + 1, _ =>
      unfold retryGo
      rw [show i + 0 = i from rfl] at hok
      rw [hok]
      simp
  | succ m ih =>
    intro f i last v hf hfail hok
    match f, hf with
    | g + 1, _ =>
      have hi : (attempt i).isOk = false := hfail i le_rfl (by omega)
      cases hA : attempt i with
      | ok w => rw [hA] at hi; simp [Except.isOk, Except.toBool] at hi
      | error e =>
        unfold retryGo
        rw [hA]
        dsimp only
        have hrec := ih g (i + 1) (some e) v (by omega)
          (fun j h1 h2 => hfail j (by omega) (by omega))
          (by rw [show i + 1 + m = i + (m + 1) by omega]; exact hok)
        rw [hrec]
        rw [List.range'_succ]
        simp only [List.flatMap_cons, List.cons_append, List.append_assoc]
        rw [show i + 1 + m = i + (m + 1) by omega]
        rfl

theorem retryGo_allFail (attempt : Nat → Except String Details) (delay : Nat) :
    ∀ (f i : Nat) (last : Option String) (e : String), 1 ≤ f →
      (∀ j, i ≤ j → j < i + f → (attempt j).isOk = false) →
      attempt (i + f - 1) = .error e →
      retryGo attempt delay i f last =
        ((List.range' i f).flatMap (fun j => [REv.att j, REv.sleep delay]),
         .error (some e)) := by
  intro f
  induction f with
  | zero => intro i last e hf; omega
  | succ g ih =>
    intro i last e _hf hfail hlast
    cases hg : g with
    | zero =>
      subst hg
      have : attempt i = .error e := by
        rw [show i + 1 - 1 = i by omega] at hlast
        exact hlast
      unfold retryGo
      rw [this]
      unfold retryGo
      simp [List.range'_succ]
    | succ g2 =>
      subst hg
      have hi : (attempt i).isOk = false := hfail i le_rfl (by omega)
      cases hA : attempt i with
      | ok w => rw [hA] at hi; simp [Except.isOk, Except.toBool] at hi
      | error e2 =>
        unfold retryGo
        rw [hA]
        dsimp only
        have hrec := ih (i + 1) (some e2) e (by omega)
          (fun j h1 h2 => hfail j (by omega) (by omega))
          (by rw [show i + 1 + (g2 + 1) - 1 = i + (g2 + 1 + 1) - 1 by omega]
              exact hlast)
        rw [hrec]
        conv_rhs => rw [List.range'_succ]
        simp [List.flatMap_cons]

/-- C8: `scrape_with_retries` attempts `get_product_details` up to the
configured retry count, sleeping the fixed delay after each failed attempt;
it returns the first successful result, and when every attempt fails it
raises the exception of the last attempt.  The orchestrator reacts to that
failure by appending nothing for the product and continuing with the next
URL. -/
theorem claim_C8 :
    (∀ (attempt : Nat → Except String Details) (delay n k : Nat) (v : Details),
       1 ≤ k → k ≤ n →
       (∀ j, 1 ≤ j → j < k → (attempt j).isOk = false) →
       attempt k = .ok v →
       scrapeWithRetries attempt delay n =
         ((List.range' 1 (k - 1)).flatMap (fun j => [REv.att j, REv.sleep delay])
            ++ [REv.att k], .ok v)) ∧
    (∀ (attempt : Nat → Except String Details) (delay n : Nat) (e : String),
       1 ≤ n →
       (∀ j, 1 ≤ j → j < n → (attempt j).isOk = false) →
       attempt n = .error e →
       scrapeWithRetries attempt delay n =
         ((List.range' 1 n).flatMap (fun j => [REv.att j, REv.sleep delay]),
          .error (some e))) ∧
    (∀ (o : Oracles) (cfg : Config) (cat : Category) (url : String)
       (rest : List String), o.scrape url = .error () →
       processLinks o cfg cat (url :: rest) = processLinks o cfg cat rest) := by
  refine ⟨?_, ?_, ?_⟩
  · intro attempt delay n k v hk hkn hfail hok
    unfold scrapeWithRetries
    have := retryGo_success attempt delay (k - 1) n 1 none v (by omega)
      (fun j h1 h2 => hfail j h1 (by omega))
      (by rw [show 1 + (k - 1) = k by omega]; exact hok)
    rw [this]
    rw [show 1 + (k - 1) = k by omega]
  · intro attempt delay n e hn hfail hlast
    unfold scrapeWithRetries
    have hfail2 : ∀ j, 1 ≤ j → j < 1 + n → (attempt j).isOk = false := by
      intro j h1 h2
      rcases Nat.lt_or_ge j n with h | h
      · exact hfail j h1 h
      · have : j = n := by omega
        rw [this, hlast]
        rfl
    have := retryGo_allFail attempt delay n 1 none e hn hfail2
      (by rw [show 1 + n - 1 = n by omega]; exact hlast)
    rw [this]
  · intro o cfg cat url rest hs
    have h0 : (processUrl o cfg cat url).2 = none := by
      unfold processUrl
      rw [hs]
    conv_lhs => rw [processLinks]
    rw [h0]

theorem claim_C8_witness :
    scrapeWithRetries attemptOnce 7 3 =
      ((List.range' 1 (2 - 1)).flatMap (fun j => [REv.att j, REv.sleep 7]) ++
         [REv.att 2], .ok d0) ∧
    scrapeWithRetries attemptNever 7 2 =
      ((List.range' 1 2).flatMap (fun j => [REv.att j, REv.sleep 7]),
       .error (some ("boom" ++ Nat.repr 2))) ∧
    processLinks oNoScrape cfg0 cat0 ["http://u.example/x"] =
      processLinks oNoScrape cfg0 cat0 [] :=
  ⟨claim_C8.1 attemptOnce 7 3 2 d0 (by omega) (by omega)
     (by intro j h1 h2
         have : j = 1 := by omega
         subst this
         rfl)
     rfl,
   claim_C8.2.1 attemptNever 7 2 ("boom" ++ Nat.repr 2) (by omega)
     (by intro j h1 h2
         rfl)
     rfl,
   claim_C8.2.2 oNoScrape cfg0 cat0 "http://u.example/x" [] rfl⟩

/-! ### C3: price cleaning -/

theorem noise_not_num : ∀ c : Char, noiseChar c = true → numRunChar c = false := by
  intro c hc
  simp only [noiseChar, Bool.or_eq_true, decide_eq_true_eq] at hc
  rcases hc with (h1 | h1) | h1 <;> subst h1 <;> decide

theorem num_not_noise : ∀ c : Char, numRunChar c = true → noiseChar c = false := by
  intro c hc
  cases hn : noiseChar c
  · rfl
  · rw [noise_not_num c hn] at hc
    exact absurd hc (by simp)

theorem num_not_space : ∀ c : Char, numRunChar c = true → c ≠ ' ' := by
  intro c hc he
  subst he
  exact absurd hc (by decide)

theorem priceFrom_split (pre core post : Chars)
    (hpre : ∀ c ∈ pre, numRunChar c = false)
    (hcore : ∀ c ∈ core, numRunChar c = true ∨ noiseChar c = true)
    (hex : ∃ c ∈ core, numRunChar c = true)
    (hpost : ∀ c ∈ (stripMarks post).take 1, numRunChar c = false) :
    priceFrom (pre ++ core ++ post) =
      core.filter (fun c => !(noiseChar c) && !(c = ',')) := by
  have h1 : stripMarks (pre ++ core ++ post) =
      stripMarks pre ++ (stripMarks core ++ stripMarks post) := by
    unfold stripMarks
    simp [List.filter_append]
  have hsc_num : ∀ c ∈ stripMarks core, numRunChar c = true := by
    intro c hc
    obtain ⟨hcl, hnf⟩ := List.mem_filter.mp hc
    rcases hcore c hcl with h | h
    · exact h
    · rw [h] at hnf
      simp at hnf
  have hsc_ne : stripMarks core ≠ [] := by
    obtain ⟨c, hcl, hnum⟩ := hex
    intro hnil
    have hmem : c ∈ stripMarks core :=
      List.mem_filter.mpr ⟨hcl, by rw [num_not_noise c hnum]; rfl⟩
    rw [hnil] at hmem
    simp at hmem
  unfold priceFrom
  rw [h1]
  have hd1 : (stripMarks pre ++ (stripMarks core ++ stripMarks post)).dropWhile
      (fun c => !(numRunChar c)) =
      (stripMarks core ++ stripMarks post).dropWhile (fun c => !(numRunChar c)) := by
    apply dropWhile_append_all
    intro c hc
    obtain ⟨hcl, _⟩ := List.mem_filter.mp hc
    rw [hpre c hcl]
    rfl
  rw [hd1]
  obtain ⟨a, t2, hsc⟩ : ∃ a t2, stripMarks core = a :: t2 := by
    cases hc : stripMarks core with
    | nil => exact absurd hc hsc_ne
    | cons a t2 => exact ⟨a, t2, rfl⟩
  have hd2 : (stripMarks core ++ stripMarks post).dropWhile
      (fun c => !(numRunChar c)) = stripMarks core ++ stripMarks post := by
    apply dropWhile_eq_self_of_head (a := a) (t := t2 ++ stripMarks post)
    · rw [hsc]
      rfl
    · have : numRunChar a = true := hsc_num a (by rw [hsc]; exact List.mem_cons_self a t2)
      rw [this]
      simp
  rw [hd2]
  have hne2 : stripMarks core ++ stripMarks post ≠ [] := by
    rw [hsc]
    simp
  rw [if_neg hne2]
  have ht1 : (stripMarks core ++ stripMarks post).takeWhile numRunChar =
      stripMarks core ++ (stripMarks post).takeWhile numRunChar :=
    takeWhile_append_all _ hsc_num
  have ht2 : (stripMarks post).takeWhile numRunChar = [] := by
    apply takeWhile_eq_nil_of_head
    intro c hc
    rw [hpost c hc]
    simp
  rw [ht1, ht2, List.append_nil]
  have hf1 : (stripMarks core).filter (fun c => !(c = ',' || c = ' ')) =
      (stripMarks core).filter (fun c => !(c = ',')) := by
    apply List.filter_congr
    intro c hc
    have hnum := hsc_num c hc
    have hsp := num_not_space c hnum
    simp [hsp]
  rw [hf1]
  unfold stripMarks
  rw [List.filter_filter]
  apply List.filter_congr
  intro c _
  rw [Bool.and_comm]

/-- C3: for a price-element text that is noise-or-nothing before a numeric
run built from digits, `.`, `,` and the stripped mark characters, the
price-cleaning step of `get_product_details` returns exactly that numeric
run with the `,` thousands separators and the space/mark characters
removed; a missing price element yields the empty string, not an error. -/
theorem claim_C3 :
    (∀ (cfg : Config) (page : Page) (url : String) (pre core post : Chars),
       page.finalPriceText = some (String.mk (pre ++ core ++ post)) →
       (∀ c ∈ pre, numRunChar c = false) →
       (∀ c ∈ core, numRunChar c = true ∨ noiseChar c = true) →
       (∃ c ∈ core, numRunChar c = true) →
       (∀ c ∈ (stripMarks post).take 1, numRunChar c = false) →
       (getProductDetails cfg page url).price =
         String.mk (core.filter (fun c => !(noiseChar c) && !(c = ',')))) ∧
    (∀ (cfg : Config) (page : Page) (url : String),
       page.finalPriceText = none →
       (getProductDetails cfg page url).price = "") := by
  constructor
  · intro cfg page url pre core post h hpre hcore hex hpost
    simp only [getProductDetails, h]
    exact congrArg String.mk (priceFrom_split pre core post hpre hcore hex hpost)
  · intro cfg page url h
    simp only [getProductDetails, h]

theorem claim_C3_witness :
    (getProductDetails cfg0 pageC3 "http://shop.example/77.html").price =
      String.mk ("1,299.90".data.filter (fun c => !(noiseChar c) && !(c = ','))) ∧
    (getProductDetails cfg0 pageNoPrice "http://shop.example/77.html").price = "" :=
  ⟨claim_C3.1 cfg0 pageC3 "http://shop.example/77.html"
     "\u20AA\u00A0".data "1,299.90".data "\u200F".data
     (by decide) (by decide) (by decide) (by decide) (by decide),
   claim_C3.2 cfg0 pageNoPrice "http://shop.example/77.html" rfl⟩

/-! ### C1: pagination of the link harvester -/

theorem collectNew_nodup (pageUrl : String) :
    ∀ (hrefs : List String) (seen : List String),
      (collectNew pageUrl seen hrefs).Nodup ∧
      ∀ x ∈ collectNew pageUrl seen hrefs, x ∉ seen := by
  intro hrefs
  induction hrefs with
  | nil => intro seen; exact ⟨List.nodup_nil, by simp [collectNew]⟩
  | cons h t ih =>
    intro seen
    by_cases hh : h = ""
    · simpa [collectNew, hh] using ih seen
    · by_cases hm : normalizeLink pageUrl h ∈ seen
      · simpa [collectNew, hh, hm] using ih seen
      · have hrec := ih (seen ++ [normalizeLink pageUrl h])
        have hstep : collectNew pageUrl seen (h :: t) =
            normalizeLink pageUrl h ::
              collectNew pageUrl (seen ++ [normalizeLink pageUrl h]) t := by
          conv_lhs => rw [collectNew]
          rw [if_neg hh]
          dsimp only
          rw [if_neg hm]
        rw [hstep]
        constructor
        · apply List.Nodup.cons
          · intro hc
            have := hrec.2 _ hc
            simp at this
          · exact hrec.1
        · intro x hx
          rcases List.mem_cons.mp hx with h1 | h2
          · subst h1; exact hm
          · intro hs
            exact hrec.2 x h2 (List.mem_append_left _ hs)

theorem extractGo_links (fetch : String → Option (List String)) (c : String) :
    ∀ (n page : Nat) (seen acc : List String),
      (extractGo fetch c n page seen acc).links =
        acc ++ (extractGo fetch c n page seen acc).newTrace.flatten := by
  intro n
  induction n with
  | zero => intro page seen acc; simp [extractGo]
  | succ n ih =>
    intro page seen acc
    unfold extractGo
    dsimp only
    cases hf : fetch (if page = 1 then c else c ++ "?p=" ++ Nat.repr page) with
    | none => simp
    | some hrefs =>
      dsimp only
      by_cases hz : (collectNew (if page = 1 then c else c ++ "?p=" ++ Nat.repr page)
          seen hrefs).length = 0
      · rw [if_pos hz]
        simp
      · rw [if_neg hz]
        dsimp only
        rw [ih]
        simp [List.append_assoc]

theorem extractGo_nodup (fetch : String → Option (List String)) (c : String) :
    ∀ (n page : Nat) (seen acc : List String), acc.Nodup →
      (∀ x ∈ acc, x ∈ seen) →
      (extractGo fetch c n page seen acc).links.Nodup := by
  intro n
  induction n with
  | zero => intro page seen acc hnd _; exact hnd
  | succ n ih =>
    intro page seen acc hnd hsub
    unfold extractGo
    dsimp only
    cases hf : fetch (if page = 1 then c else c ++ "?p=" ++ Nat.repr page) with
    | none => exact hnd
    | some hrefs =>
      dsimp only
      have hcn := collectNew_nodup
        (if page = 1 then c else c ++ "?p=" ++ Nat.repr page) hrefs seen
      have hap : (acc ++ collectNew
          (if page = 1 then c else c ++ "?p=" ++ Nat.repr page) seen hrefs).Nodup := by
        rw [List.nodup_append]
        refine ⟨hnd, hcn.1, ?_⟩
        intro x hx hx2
        exact hcn.2 x hx2 (hsub x hx)
      by_cases hz : (collectNew (if page = 1 then c else c ++ "?p=" ++ Nat.repr page)
          seen hrefs).length = 0
      · rw [if_pos hz]
        exact hap
      · rw [if_neg hz]
        dsimp only
        apply ih
        · exact hap
        · intro x hx
          rcases List.mem_append.mp hx with h1 | h2
          · exact List.mem_append_left _ (hsub x h1)
          · exact List.mem_append_right _ h2

theorem extractGo_pages (fetch : String → Option (List String)) (c : String) :
    ∀ (n page : Nat) (seen acc : List String),
      (∀ t ∈ (extractGo fetch c n page seen acc).newTrace.dropLast, t ≠ []) ∧
      ((extractGo fetch c n page seen acc).newTrace.getLast? = some [] →
        (extractGo fetch c n page seen acc).pageUrls =
          pageUrlsFrom c page (extractGo fetch c n page seen acc).newTrace.length) := by
  intro n
  induction n with
  | zero => intro page seen acc; refine ⟨by simp [extractGo], by simp [extractGo]⟩
  | succ n ih =>
    intro page seen acc
    unfold extractGo
    dsimp only
    cases hf : fetch (if page = 1 then c else c ++ "?p=" ++ Nat.repr page) with
    | none => exact ⟨by simp, by simp⟩
    | some hrefs =>
      dsimp only
      by_cases hz : (collectNew (if page = 1 then c else c ++ "?p=" ++ Nat.repr page)
          seen hrefs).length = 0
      · rw [if_pos hz]
        refine ⟨by simp, ?_⟩
        intro _
        simp [pageUrlsFrom]
      · rw [if_neg hz]
        dsimp only
        have hrec := ih (page + 1)
          (seen ++ collectNew (if page = 1 then c else c ++ "?p=" ++ Nat.repr page) seen hrefs)
          (acc ++ collectNew (if page = 1 then c else c ++ "?p=" ++ Nat.repr page) seen hrefs)
        set nw := collectNew (if page = 1 then c else c ++ "?p=" ++ Nat.repr page)
          seen hrefs with hnw
        set r := extractGo fetch c n (page + 1) (seen ++ nw) (acc ++ nw) with hr
        constructor
        · intro t ht
          cases hrt : r.newTrace with
          | nil =>
            rw [hrt] at ht
            simp at ht
          | cons t1 ts =>
            rw [hrt] at ht
            rw [show (nw :: t1 :: ts).dropLast = nw :: (t1 :: ts).dropLast from rfl] at ht
            rcases List.mem_cons.mp ht with h1 | h2
            · subst h1
              intro hc
              rw [hc] at hz
              simp at hz
            · exact hrec.1 t (by rw [hrt]; exact h2)
        · intro hlast
          cases hrt : r.newTrace with
          | nil =>
            rw [hrt] at hlast
            simp at hlast
            rw [hlast] at hz
            simp at hz
          | cons t1 ts =>
            rw [hrt] at hlast
            rw [List.getLast?_cons_cons] at hlast
            have hrec2 := hrec.2 (by rw [hrt]; exact hlast)
            rw [hrec2, hrt]
            simp only [List.length_cons]
            rfl

/-- C1: a category whose successively fetched pages contribute
previously-unseen link counts `[5, 5, 5, 0]` is fetched exactly four times
(bare URL for page 1, `?p={page}` afterwards), stops after the page that
contributed zero new links, and returns 15 pairwise-distinct links in
discovery order (the concatenation of the per-page new links). -/
theorem claim_C1 (fetch : String → Option (List String)) (c : String)
    (fuel : Nat)
    (h : (extractAll fetch c fuel).newTrace.map List.length = [5, 5, 5, 0]) :
    (extractAll fetch c fuel).pageUrls =
      [c, c ++ "?p=2", c ++ "?p=3", c ++ "?p=4"] ∧
    (extractAll fetch c fuel).links.length = 15 ∧
    (extractAll fetch c fuel).links.Nodup ∧
    (extractAll fetch c fuel).links = (extractAll fetch c fuel).newTrace.flatten := by
  have hlen : (extractAll fetch c fuel).newTrace.length = 4 := by
    have h2 := congrArg List.length h
    rw [List.length_map] at h2
    exact h2
  have hlast : (extractAll fetch c fuel).newTrace.getLast? = some [] := by
    have h1 : ((extractAll fetch c fuel).newTrace.map List.length).getLast? =
        some 0 := by rw [h]; rfl
    rw [List.getLast?_map] at h1
    cases hg : (extractAll fetch c fuel).newTrace.getLast? with
    | none => rw [hg] at h1; simp at h1
    | some t =>
      rw [hg] at h1
      simp at h1
      rw [h1]
  have hjoin : (extractAll fetch c fuel).links =
      (extractAll fetch c fuel).newTrace.flatten := by
    have := extractGo_links fetch c fuel 1 [] []
    simpa [extractAll] using this
  refine ⟨?_, ?_, ?_, hjoin⟩
  · have hurls := (extractGo_pages fetch c fuel 1 [] []).2
    rw [show extractGo fetch c fuel 1 [] [] = extractAll fetch c fuel from rfl] at hurls
    have h3 := hurls hlast
    rw [hlen] at h3
    rw [h3]
    rw [show pageUrlsFrom c 1 4 =
      [c, c ++ "?p=" ++ Nat.repr 2, c ++ "?p=" ++ Nat.repr 3,
       c ++ "?p=" ++ Nat.repr 4] from rfl]
    rw [String.append_assoc c "?p=" (Nat.repr 2),
        String.append_assoc c "?p=" (Nat.repr 3),
        String.append_assoc c "?p=" (Nat.repr 4)]
    rw [show ("?p=" ++ Nat.repr 2 : String) = "?p=2" from rfl,
        show ("?p=" ++ Nat.repr 3 : String) = "?p=3" from rfl,
        show ("?p=" ++ Nat.repr 4 : String) = "?p=4" from rfl]
  · rw [hjoin]
    rw [List.length_flatten, h]
    rfl
  · have := extractGo_nodup fetch c fuel 1 [] [] List.nodup_nil (by simp)
    simpa [extractAll] using this

theorem claim_C1_witness :
    (extractAll fetchC1 "http://shop.example/cat" 5).pageUrls =
      ["http://shop.example/cat", "http://shop.example/cat" ++ "?p=2",
       "http://shop.example/cat" ++ "?p=3", "http://shop.example/cat" ++ "?p=4"] ∧
    (extractAll fetchC1 "http://shop.example/cat" 5).links.length = 15 ∧
    (extractAll fetchC1 "http://shop.example/cat" 5).links.Nodup ∧
    (extractAll fetchC1 "http://shop.example/cat" 5).links =
      (extractAll fetchC1 "http://shop.example/cat" 5).newTrace.flatten :=
  claim_C1 fetchC1 "http://shop.example/cat" 5 (by decide)

/-! ### C4: normalize_link — absoluteness and query stripping -/

theorem uint32_le_iff (a b : UInt32) : a ≤ b ↔ a.toNat ≤ b.toNat := by
  rw [UInt32.le_def, BitVec.le_def]
  exact Iff.rfl

theorem char_isUpper_iff (c : Char) :
    c.isUpper = true ↔ 65 ≤ c.toNat ∧ c.toNat ≤ 90 := by
  unfold Char.isUpper
  simp only [Bool.and_eq_true, decide_eq_true_eq, ge_iff_le]
  constructor
  · intro ⟨h1, h2⟩
    exact ⟨(uint32_le_iff 65 c.val).mp h1, (uint32_le_iff c.val 90).mp h2⟩
  · intro ⟨h1, h2⟩
    exact ⟨(uint32_le_iff 65 c.val).mpr h1, (uint32_le_iff c.val 90).mpr h2⟩

theorem mem_splitFirst_snd (p : Char → Bool) :
    ∀ (l post : Chars), (splitFirst p l).2 = some post → ∀ c ∈ post, c ∈ l := by
  intro l
  induction l with
  | nil => intro post h; simp [splitFirst] at h
  | cons a t ih =>
    intro post h c hc
    by_cases ha : p a
    · simp [splitFirst, ha] at h
      exact List.mem_cons_of_mem a (h ▸ hc)
    · simp [splitFirst, ha] at h
      exact List.mem_cons_of_mem a (ih post h c hc)

theorem mem_of_mem_dropWhile {p : Char → Bool} {l : Chars} {c : Char}
    (h : c ∈ l.dropWhile p) : c ∈ l := by
  induction l with
  | nil => simpa using h
  | cons a t ih =>
    by_cases ha : p a
    · rw [List.dropWhile_cons_of_pos ha] at h
      exact List.mem_cons_of_mem a (ih h)
    · rw [List.dropWhile_cons_of_neg ha] at h
      exact h

theorem schemeSplit_cases (d url : Chars) :
    schemeSplit d url = (d, url) ∨
    ∃ pre post, splitFirst (fun c => c = ':') url = (pre, some post) ∧
      validScheme pre = true ∧ schemeSplit d url = (lowerChars pre, post) := by
  unfold schemeSplit
  dsimp only
  cases hs : (splitFirst (fun c => c = ':') url).2 with
  | none =>
    left
    rfl
  | some post =>
    dsimp only
    by_cases hv : validScheme (splitFirst (fun c => c = ':') url).1 = true
    · right
      refine ⟨(splitFirst (fun c => c = ':') url).1, post, ?_, hv, ?_⟩
      · rw [← hs]
      · rw [if_pos hv]
    · left
      rw [if_neg hv]

theorem schemeSplit_snd_mem (d url : Chars) :
    ∀ c ∈ (schemeSplit d url).2, c ∈ url := by
  rcases schemeSplit_cases d url with h | ⟨pre, post, hsp, _, h⟩
  · rw [h]; exact fun c hc => hc
  · rw [h]
    exact fun c hc => mem_splitFirst_snd _ url post (by rw [hsp]) c hc

theorem netlocSplit_snd_sub (rest : Chars) :
    ∀ c ∈ (netlocSplit rest).2, c ∈ rest := by
  unfold netlocSplit
  by_cases h2 : rest.take 2 = ['/', '/']
  · rw [if_pos h2]
    intro c hc
    exact List.drop_subset 2 rest (mem_of_mem_dropWhile hc)
  · rw [if_neg h2]
    exact fun c hc => hc

